import Mathlib

/-!
Verification development for the `pox5fly_oj_helper` online-judge test
harness (`src/pox5fly_oj_helper/online_judge_tester.py`).

The Python module is shallowly embedded below: each Python function of
interest becomes a Lean definition over explicit data.  File-system and
process effects are abstracted as explicit inputs (file contents, the
outcome of the spawned process), machine floats (elapsed milliseconds)
are modelled by rationals, and Python line splitting is modelled for
the newline character, the only line boundary occurring in this
harness's data.  String primitives are implemented by structural
recursion over the character list so that every definition evaluates
inside the kernel.
-/

namespace OJ

/-- Status constants of `OnlineJudgeTester`. -/
def STATUS_AC : String := "AC"

def STATUS_WA : String := "WA"

def STATUS_TLE : String := "TLE"

def STATUS_RE : String := "RE"

def STATUS_MISSING : String := "MISSING"

/-- Split a character list at every newline character (model of Python
`str.split` on a newline separator). -/
def splitOnNl : List Char → List Char → List (List Char)
  | [], acc => [acc.reverse]
  | c :: cs, acc =>
    if c = '\n' then acc.reverse :: splitOnNl cs []
    else splitOnNl cs (c :: acc)

/-- Model of Python `str.splitlines` for texts whose line boundaries are
the newline character: split on newline, with no trailing empty chunk
when the text ends in a newline, and no chunk at all for the empty
text. -/
def splitlines (s : String) : List String :=
  if s.data = [] then []
  else
    let parts := (splitOnNl s.data []).map String.mk
    if s.data.getLast? = some '\n' then parts.dropLast else parts

/-- Model of Python `str.strip` with no argument: remove leading and
trailing whitespace characters. -/
def pyStrip (s : String) : String :=
  String.mk (((s.data.dropWhile Char.isWhitespace).reverse.dropWhile
    Char.isWhitespace).reverse)

/-- The lenient preprocessing `process_lines` inside `_compare_output`:
strip each line of surrounding whitespace and keep only those that are
nonempty after stripping. -/
def process_lines (text : String) : List String :=
  ((splitlines text).map pyStrip).filter (fun l => l ≠ "")

/-- Single-quote character (used by the model of Python `repr`). -/
def squote : Char := Char.ofNat 39

/-- Double-quote character. -/
def dquote : Char := Char.ofNat 34

/-- Backslash character. -/
def bslash : Char := Char.ofNat 92

/-- Escape one character the way Python `repr` does inside a string
quoted by `q`. -/
def pyEscapeChar (q : Char) (c : Char) : List Char :=
  if c = bslash then [bslash, bslash]
  else if c = q then [bslash, q]
  else if c = '\n' then [bslash, 'n']
  else if c = '\t' then [bslash, 't']
  else if c = Char.ofNat 13 then [bslash, 'r']
  else [c]

/-- Model of Python `repr` on strings: single-quoted unless the string
holds a single quote and no double quote, with the usual escapes. -/
def pyRepr (s : String) : String :=
  let q : Char :=
    if s.data.any (fun c => c = squote) ∧ ¬ s.data.any (fun c => c = dquote)
    then dquote else squote
  String.mk (q :: (s.data.map (pyEscapeChar q)).flatten ++ [q])

/-- The expected line used at position `i` of the diff loop: the real
expected line when it exists, the literal marker otherwise. -/
def expAt (exp_lines : List String) (i : Nat) : String :=
  (exp_lines[i]?).getD "<EOF>"

/-- The per-line mismatch entry emitted by `_compare_output` at loop
index `i`. -/
def entryFor (i : Nat) (la le : String) : String :=
  "line " ++ toString (i + 1) ++ ": got:    " ++ pyRepr la ++
    "\n        expect: " ++ pyRepr le

/-- The early-EOF entry of `_compare_output`. -/
def insuffMsg : String := "Error: Insufficient output lines."

/-- The trailing suppressed-differences summary of `_compare_output`. -/
def moreMsg (n : Nat) : String :=
  "... and " ++ toString n ++ " more differences."

/-- Whether the mismatch whose running count is `c` is rendered, given
the `max_diffs` cap (`none` means unbounded). -/
def renderOk (md : Option Nat) (c : Nat) : Bool :=
  match md with
  | none => true
  | some m => decide (c ≤ m)

/-- The diff-report loop of `_compare_output`: iterate `fuel` more
indices starting at `i` with `count` mismatches seen so far, returning
the emitted entries and the final mismatch count.  Mirrors
`for i in range(max_len)` with its early stop on insufficient actual
lines. -/
def reportAux (act_lines exp_lines : List String) (md : Option Nat) :
    Nat → Nat → Nat → List String × Nat
  | 0, _i, count => ([], count)
  | fuel + 1, i, count =>
    if act_lines.length ≤ i then ([insuffMsg], count)
    else if act_lines.getD i "" = expAt exp_lines i then
      reportAux act_lines exp_lines md fuel (i + 1) count
    else if renderOk md (count + 1) then
      (entryFor i (act_lines.getD i "") (expAt exp_lines i) ::
        (reportAux act_lines exp_lines md fuel (i + 1) (count + 1)).1,
       (reportAux act_lines exp_lines md fuel (i + 1) (count + 1)).2)
    else reportAux act_lines exp_lines md fuel (i + 1) (count + 1)

/-- The full WA report of `_compare_output` on the two line sequences:
loop entries followed by the suppressed-differences summary when the
count exceeds the cap. -/
def compareReport (act_lines exp_lines : List String) (md : Option Nat) :
    List String :=
  (reportAux act_lines exp_lines md (max act_lines.length exp_lines.length) 0 0).1 ++
    (match md with
     | none => []
     | some m =>
       if m < (reportAux act_lines exp_lines md
           (max act_lines.length exp_lines.length) 0 0).2
       then [moreMsg ((reportAux act_lines exp_lines md
           (max act_lines.length exp_lines.length) 0 0).2 - m)]
       else [])

/-- Join report lines with newlines (model of `"\n".join`). -/
def joinLines (l : List String) : String :=
  String.mk (List.intercalate ['\n'] (l.map String.data))

/-- `_compare_output`: strict mode first tries exact text equality, then
both modes compare the preprocessed line sequences and fall into the
WA report when they differ.  Returns `(status, error_message)`. -/
def compare_output (actual_output expected_output : String) (strict : Bool)
    (md : Option Nat) : String × String :=
  if strict = true ∧ actual_output = expected_output then (STATUS_AC, "")
  else
    let act_lines := if strict then splitlines actual_output
      else process_lines actual_output
    let exp_lines := if strict then splitlines expected_output
      else process_lines expected_output
    if act_lines = exp_lines then (STATUS_AC, "")
    else (STATUS_WA, joinLines (compareReport act_lines exp_lines md))

/-! ### Process Runner (`_run_single_process`) -/

/-- The observable outcome of one spawned candidate process, the input
to the classification logic of `_run_single_process`.
`completed` is a normal termination within the time limit; `timedOut`
carries the optional result of the post-kill drain (captured stdout and
stderr) and, when that drain itself fails, the optional partial stdout
attached to the timeout signal; `spawnFailure` is an operating-system
level error whose description is given. -/
inductive ProcOutcome where
  | completed (returncode : Int) (stdout stderr : String) (duration : ℚ)
  | timedOut (drained : Option (String × String)) (excStdout : Option String)
      (duration : ℚ)
  | spawnFailure (descr : String)

/-- `_run_single_process`: classify one run.  Returns
`(status, output, duration_ms, error_message)`. -/
def run_single_process : ProcOutcome → String × String × ℚ × String
  | .completed rc stdout stderr duration =>
    if rc ≠ 0 then (STATUS_RE, stdout, duration, stderr)
    else (STATUS_AC, stdout, duration, "")
  | .timedOut drained excStdout duration =>
    let stdout :=
      match drained with
      | some p => p.1
      | none => match excStdout with
        | some o => o
        | none => ""
    (STATUS_TLE, stdout, duration, "")
  | .spawnFailure descr => (STATUS_RE, "", 0, descr)

/-! ### Repeat Controller (`_execute_case_with_repeat`) -/

/-- One attempt's result as produced by the Process Runner. -/
structure RunRes where
  status : String
  output : String
  duration : ℚ
  error : String
deriving DecidableEq

/-- The loop body of `_execute_case_with_repeat`: run the remaining `n`
attempts starting at attempt index `i`, carrying the accumulated times
and the latest status/output/error. -/
def repeatGo (attempts : Nat → RunRes) :
    Nat → Nat → List ℚ → String → String → String →
      String × List ℚ × String × String
  | _i, 0, times, st, out, err => (st, times, out, err)
  | i, n + 1, times, _st, _out, _err =>
    let a := attempts i
    let times1 := times ++ [a.duration]
    if a.status ≠ STATUS_AC then (a.status, times1, a.output, a.error)
    else repeatGo attempts (i + 1) n times1 a.status a.output a.error

/-- `_execute_case_with_repeat` on an input whose per-attempt process
outcomes are given by `attempts`: up to `repeat_count` sequential runs,
stopping at the first non-AC attempt.  Returns
`(status, execution_times, final_output, error_message)`. -/
def execute_case_with_repeat (attempts : Nat → RunRes) (repeat_count : Nat) :
    String × List ℚ × String × String :=
  repeatGo attempts 0 repeat_count [] "" "" ""

/-- The index of the first attempt among `fuel` attempts starting at `i`
whose status is not AC. -/
def firstNonAC (attempts : Nat → RunRes) : Nat → Nat → Option Nat
  | _i, 0 => none
  | i, fuel + 1 =>
    if (attempts i).status ≠ STATUS_AC then some i
    else firstNonAC attempts (i + 1) fuel

/-! ### Case Store (`_collect_test_cases` ordering, `_filter_test_cases`) -/

/-- A discovered test case: the stem of its input file and whether (and
with which content) a sibling expected-output file exists. -/
structure TCase where
  name : String
  expected : Option String
deriving DecidableEq

/-- The first maximal run of decimal digits in a character list (model
of the first match of a digit-run pattern search, as used by
`sort_key`). -/
def firstDigitRun : List Char → Option (List Char)
  | [] => none
  | c :: cs =>
    if c.isDigit then some (c :: cs.takeWhile Char.isDigit)
    else firstDigitRun cs

/-- Decimal value of a digit list (model of Python `int` on a digit
string). -/
def digitsToNat (ds : List Char) : Nat :=
  ds.foldl (fun acc c => acc * 10 + (c.toNat - 48)) 0

/-- The `sort_key` helper of `_collect_test_cases`: the integer value of
the first digit run of the stem when one exists, otherwise the stem
itself.  The two branches return values of different Python types,
modelled by a sum. -/
def sort_key (name : String) : Nat ⊕ String :=
  match firstDigitRun name.data with
  | some ds => Sum.inl (digitsToNat ds)
  | none => Sum.inr name

/-- Python's order comparison on `sort_key` results: defined within each
summand, a `TypeError` (modelled as `none`) across summands. -/
def pyLtKey : Nat ⊕ String → Nat ⊕ String → Option Bool
  | Sum.inl a, Sum.inl b => some (decide (a < b))
  | Sum.inr a, Sum.inr b => some (decide (a < b))
  | Sum.inl _, Sum.inr _ => none
  | Sum.inr _, Sum.inl _ => none

/-- Insert into a sorted key list using Python comparison, propagating a
`TypeError`. -/
def insertKeyPy (x : Nat ⊕ String) : List (Nat ⊕ String) →
    Option (List (Nat ⊕ String))
  | [] => some [x]
  | y :: ys =>
    match pyLtKey x y with
    | none => none
    | some true => some (x :: y :: ys)
    | some false => (insertKeyPy x ys).map (fun l => y :: l)

/-- Sort a key list using Python comparison (insertion sort): `none`
models the `TypeError` Python `list.sort` raises when it compares two
keys of different types. -/
def sortKeysPy : List (Nat ⊕ String) → Option (List (Nat ⊕ String))
  | [] => some []
  | x :: xs =>
    match sortKeysPy xs with
    | none => none
    | some s => insertKeyPy x s

/-- The sort of `_collect_test_cases` at the level of sort keys: sort
the keys of the discovered stems with Python comparison. -/
def sortCasesPy (names : List String) : Option (List (Nat ⊕ String)) :=
  sortKeysPy (names.map sort_key)

/-- A filter token of `_filter_test_cases`: a Python `int` or `str`. -/
inductive Token where
  | int (value : Int)
  | str (value : String)
deriving DecidableEq

/-- Model of Python `str.isdigit` for ASCII text: nonempty and all
characters decimal digits. -/
def pyIsdigit (s : String) : Bool :=
  ¬ s.data = [] ∧ s.data.all Char.isDigit

/-- Substring containment (model of Python `in` on strings). -/
def strContains (sub s : String) : Bool :=
  decide (sub.data <:+: s.data)

/-- Whether one filter token matches a case name. -/
def tokenMatches (t : Token) (case_name : String) : Bool :=
  match t with
  | .int n => pyIsdigit case_name ∧ (digitsToNat case_name.data : Int) = n
  | .str sub => strContains sub case_name

/-- `_filter_test_cases`: keep the cases matched by at least one token;
a missing or empty token list keeps everything. -/
def filter_test_cases (all_cases : List TCase)
    (cases_to_run : Option (List Token)) : List TCase :=
  match cases_to_run with
  | none => all_cases
  | some [] => all_cases
  | some ts => all_cases.filter (fun c => ts.any (fun t => tokenMatches t c.name))

/-! ### Recursion Guard (`_handle_child_process`) -/

/-- One traceback frame: the absolute path of its source file and its
rendered text. -/
structure Frame where
  filename : String
  text : String
deriving DecidableEq

/-- What `_handle_child_process` does to the process: return control to
orchestration, terminate with status 0 after flushing stdout, or write
a diagnostic to standard error and terminate with status 1. -/
inductive ChildAction where
  | proceed
  | exitSuccess
  | exitFailure (stderrText : String)
deriving DecidableEq

/-- `_handle_child_process`: the recursion guard.  `marker` is the value
of the `OJ_CHILD_PROCESS` environment variable, `harnessFile` the
absolute path of the harness module, and `solOutcome` the behaviour of
the candidate entry routine: `none` when it returns normally, or the
extracted traceback frames and the formatted exception text when it
raises. -/
def handle_child_process (marker : Option String) (harnessFile : String)
    (solOutcome : Option (List Frame × String)) : ChildAction :=
  if marker ≠ some "1" then .proceed
  else
    match solOutcome with
    | none => .exitSuccess
    | some (tb, excText) =>
      let filtered := tb.filter (fun f => f.filename ≠ harnessFile)
      .exitFailure ("Traceback (most recent call last):\n" ++
        String.join (filtered.map Frame.text) ++ excText)

/-! ### Orchestrator (`run_tests`) -/

/-- Truthiness of the `cases_to_run` argument (Python `not` on an
optional list). -/
def tokensTruthy : Option (List Token) → Bool
  | none => false
  | some [] => false
  | some (_ :: _) => true

/-- How the case-selection prologue of `run_tests` resolves: a raised
no-cases error, the warn-and-return-empty path, or the selected cases
to execute. -/
inductive SelectOutcome where
  | noCasesError
  | emptyFiltered
  | proceed (targets : List TCase)
deriving DecidableEq

/-- The prologue of `run_tests`: raise when discovery found nothing and
no filter was requested; after filtering, warn and return empty when a
requested filter matched nothing. -/
def select_cases (all_cases : List TCase)
    (cases_to_run : Option (List Token)) : SelectOutcome :=
  if all_cases = [] ∧ ¬ tokensTruthy cases_to_run then .noCasesError
  else
    let targets := filter_test_cases all_cases cases_to_run
    if tokensTruthy cases_to_run ∧ targets = [] then .emptyFiltered
    else .proceed targets

/-- The per-case adjudication step of `run_tests` after the repeat
controller returned: when the run status is AC and output comparison is
enabled, adopt the comparator verdict against the expected content when
it exists (overwriting the error message only on a non-AC verdict), or
mark the case MISSING naming the absent expected file. -/
def adjudicate (compareOutputFlag : Bool) (strict : Bool) (md : Option Nat)
    (status errorMsg : String) (case_name : String)
    (expected : Option String) (output : String) : String × String :=
  if status = STATUS_AC ∧ compareOutputFlag then
    match expected with
    | some expContent =>
      let r := compare_output output expContent strict md
      (r.1, if r.1 ≠ STATUS_AC then r.2 else errorMsg)
    | none => (STATUS_MISSING, "找不到對應的 " ++ case_name ++ ".out 檔案")
  else (status, errorMsg)

/-- Entry of `run_tests`: the recursion guard runs before any
orchestration work; only when it returns does case selection happen. -/
def run_tests_entry (marker : Option String) (harnessFile : String)
    (solOutcome : Option (List Frame × String)) (all_cases : List TCase)
    (cases_to_run : Option (List Token)) : ChildAction ⊕ SelectOutcome :=
  match handle_child_process marker harnessFile solOutcome with
  | .proceed => Sum.inr (select_cases all_cases cases_to_run)
  | a => Sum.inl a

/-! ### Specification-side descriptions of the diff report (for the
comparison of `reportAux` against the specified report shape) -/

/-- The mismatch positions the diff loop visits, in loop order: same
iteration structure as `reportAux`, recording the indices at which the
actual and (EOF-padded) expected lines differ. -/
def mismatchIdxs (act_lines exp_lines : List String) : Nat → Nat → List Nat
  | 0, _i => []
  | fuel + 1, i =>
    if act_lines.length ≤ i then []
    else if act_lines.getD i "" = expAt exp_lines i then
      mismatchIdxs act_lines exp_lines fuel (i + 1)
    else i :: mismatchIdxs act_lines exp_lines fuel (i + 1)

/-- The positions `i` below the actual line count at which the actual
line differs from the EOF-padded expected line. -/
def mismatches (act_lines exp_lines : List String) : List Nat :=
  (List.range act_lines.length).filter
    (fun i => act_lines.getD i "" ≠ expAt exp_lines i)

/-- The mismatch positions actually rendered, given the cap and the
number of mismatches already counted: all of them for an unset cap,
otherwise the first `cap - count` of them. -/
def takeCap (md : Option Nat) (count : Nat) (l : List Nat) : List Nat :=
  match md with
  | none => l
  | some m => l.take (m - count)

/-! ## Theorems -/

/-- C1: `_run_single_process` classifies each run outcome exactly as
specified: exit 0 gives AC with empty diagnostic and the captured
stdout; nonzero exit gives RE with the captured stderr as diagnostic
and the captured stdout as output; a timeout gives TLE with empty
diagnostic and whatever stdout was salvaged (the drained stdout, else
the partial stdout attached to the timeout, else empty) — the status
carries no exit code since the `timedOut` outcome is classified without
consulting any; a spawn-level failure gives RE with the failure
description, empty output and elapsed time 0. -/
theorem run_single_process_classification :
    (∀ stdout stderr d,
      run_single_process (.completed 0 stdout stderr d) = (STATUS_AC, stdout, d, "")) ∧
    (∀ rc stdout stderr d, rc ≠ 0 →
      run_single_process (.completed rc stdout stderr d) = (STATUS_RE, stdout, d, stderr)) ∧
    (∀ drained excStdout d,
      run_single_process (.timedOut drained excStdout d) =
        (STATUS_TLE, (drained.map Prod.fst).getD (excStdout.getD ""), d, "")) ∧
    (∀ descr,
      run_single_process (.spawnFailure descr) = (STATUS_RE, "", 0, descr)) := by
  refine ⟨fun stdout stderr d => rfl, fun rc stdout stderr d h => ?_,
    fun drained excStdout d => ?_, fun descr => rfl⟩
  · simp [run_single_process, h]
  · cases drained with
    | none => cases excStdout <;> rfl
    | some p => rfl

/-- Witness for C1 at concrete inputs: a nonzero exit code is
classified as RE with the captured streams. -/
theorem run_single_process_classification_witness :
    run_single_process (.completed 1 "out" "err" 5) = (STATUS_RE, "out", 5, "err") :=
  run_single_process_classification.2.1 1 "out" "err" 5 (by decide)

/-- C3 (showing the code bug): the discovery sort key is the value of
the first digit run when one exists (`"1"` maps to the integer key 1)
and the full stem otherwise (`"abc"` maps to the string key `"abc"`),
but Python's order comparison is untyped across the two kinds of key —
modelled by `pyLtKey` returning `none`, a `TypeError` — so sorting the
mixed case set `{"1", "abc"}` fails rather than succeeding with a
total order; an all-numeric set such as `{"10", "2"}` does sort
numerically. -/
theorem sort_key_mixed_type_error :
    sort_key "1" = Sum.inl 1 ∧
    sort_key "abc" = Sum.inr "abc" ∧
    pyLtKey (sort_key "abc") (sort_key "1") = none ∧
    sortCasesPy ["1", "abc"] = none ∧
    sortCasesPy ["10", "2"] = some [Sum.inl 2, Sum.inl 10] := by
  decide

/-- The WA and AC status strings differ. -/
theorem WA_ne_AC : STATUS_WA ≠ STATUS_AC := by decide

/-- The lenient comparator accepts exactly when the stripped, blank-line
filtered line sequences agree. -/
theorem compare_lenient_AC_iff (a e : String) (md : Option Nat) :
    (compare_output a e false md).1 = STATUS_AC ↔ process_lines a = process_lines e := by
  have h1 : ¬ ((false : Bool) = true ∧ a = e) := by simp
  unfold compare_output
  rw [if_neg h1]
  simp only [Bool.false_eq_true, if_false]
  by_cases h : process_lines a = process_lines e
  · rw [if_pos h]
    exact iff_of_true rfl h
  · rw [if_neg h]
    exact iff_of_false (fun hc => WA_ne_AC hc) h

/-- The strict comparator accepts exactly when the raw line sequences
agree. -/
theorem compare_strict_AC_iff (a e : String) (md : Option Nat) :
    (compare_output a e true md).1 = STATUS_AC ↔ splitlines a = splitlines e := by
  unfold compare_output
  by_cases hae : a = e
  · rw [if_pos ⟨rfl, hae⟩]
    exact iff_of_true rfl (by rw [hae])
  · rw [if_neg (by simp [hae])]
    simp only [if_true]
    by_cases h : splitlines a = splitlines e
    · rw [if_pos h]
      exact iff_of_true rfl h
    · rw [if_neg h]
      exact iff_of_false (fun hc => WA_ne_AC hc) h

/-- C4: lenient comparison strips surrounding whitespace off every
retained line and drops lines blank after stripping — so its verdict
is AC exactly when the so-normalized sequences agree — while strict
comparison splits with no trimming or filtering; on the pair
`("a \n\nb", "a\nb")` the lenient verdict is AC and the strict verdict
is WA, for every diff cap. -/
theorem compare_modes_spec :
    (∀ a e md, (compare_output a e false md).1 = STATUS_AC ↔
      ((splitlines a).map pyStrip).filter (fun l => l ≠ "") =
        ((splitlines e).map pyStrip).filter (fun l => l ≠ "")) ∧
    (∀ md, (compare_output "a \n\nb" "a\nb" false md).1 = STATUS_AC) ∧
    (∀ md, (compare_output "a \n\nb" "a\nb" true md).1 = STATUS_WA) := by
  refine ⟨fun a e md => compare_lenient_AC_iff a e md, fun md => rfl, fun md => rfl⟩

/-- C10: strict comparison is line-sequence-exact rather than
byte-exact: any two texts with equal split line sequences compare AC,
in particular `"a\n"` versus `"a"`, which differ as raw strings only in
the trailing final newline. -/
theorem strict_compare_line_sequence_exact :
    (∀ a e md, splitlines a = splitlines e →
      (compare_output a e true md).1 = STATUS_AC) ∧
    ("a\n" : String) ≠ "a" ∧
    (∀ md, compare_output "a\n" "a" true md = (STATUS_AC, "")) := by
  refine ⟨fun a e md h => (compare_strict_AC_iff a e md).mpr h, by decide, fun md => rfl⟩

/-- Witness for C10: the concrete pair differing only in the final
newline is accepted strictly. -/
theorem strict_compare_line_sequence_exact_witness :
    (compare_output "a\n" "a" true (some 10)).1 = STATUS_AC :=
  strict_compare_line_sequence_exact.1 "a\n" "a" (some 10) (by decide)

/-- C7: with comparison enabled, an AC run against an existing expected
output adopts the comparator's verdict (and its message exactly when
that verdict is not AC); against a missing expected output the status
becomes MISSING with a diagnostic naming the missing `.out` file; with
comparison disabled the AC status and message stand unchanged. -/
theorem adjudicate_spec :
    (∀ strict md errorMsg name expContent output,
      adjudicate true strict md STATUS_AC errorMsg name (some expContent) output =
        ((compare_output output expContent strict md).1,
         if (compare_output output expContent strict md).1 ≠ STATUS_AC
         then (compare_output output expContent strict md).2 else errorMsg)) ∧
    (∀ strict md errorMsg name output,
      adjudicate true strict md STATUS_AC errorMsg name none output =
        (STATUS_MISSING, "找不到對應的 " ++ name ++ ".out 檔案")) ∧
    (∀ strict md errorMsg name expected output,
      adjudicate false strict md STATUS_AC errorMsg name expected output =
        (STATUS_AC, errorMsg)) := by
  refine ⟨fun strict md errorMsg name expContent output => rfl,
    fun strict md errorMsg name output => rfl,
    fun strict md errorMsg name expected output => rfl⟩


/-- C6: filtering with a missing or empty token list returns the case
set unchanged; with tokens, it keeps exactly the cases matched by at
least one token (logical OR across tokens, each evaluated independently
per case) and the result is a subsequence of the input, so the original
relative order is preserved; an integer token matches precisely the
all-digit names of equal numeric value, so token 1 matches "01" but not
"1abc". -/
theorem filter_test_cases_spec :
    (∀ all_cases, filter_test_cases all_cases none = all_cases) ∧
    (∀ all_cases, filter_test_cases all_cases (some []) = all_cases) ∧
    (∀ all_cases ts, ts ≠ [] →
      filter_test_cases all_cases (some ts) =
        all_cases.filter (fun c => ts.any (fun t => tokenMatches t c.name))) ∧
    (∀ all_cases toks, (filter_test_cases all_cases toks).Sublist all_cases) ∧
    tokenMatches (.int 1) "01" = true ∧
    tokenMatches (.int 1) "1abc" = false := by
  refine ⟨fun all_cases => rfl, fun all_cases => rfl,
    fun all_cases ts hts => ?_, fun all_cases toks => ?_, by decide, by decide⟩
  · cases ts with
    | nil => exact absurd rfl hts
    | cons t ts => rfl
  · cases toks with
    | none => exact List.Sublist.refl _
    | some ts =>
      cases ts with
      | nil => exact List.Sublist.refl _
      | cons t ts => exact List.filter_sublist _

/-- Witness for C6 at concrete inputs: the integer token 1 selects the
case named "01" and rejects the case named "1abc". -/
theorem filter_test_cases_spec_witness :
    filter_test_cases [⟨"01", none⟩, ⟨"1abc", none⟩] (some [Token.int 1]) =
      [⟨"01", none⟩] :=
  (filter_test_cases_spec.2.2.1 [⟨"01", none⟩, ⟨"1abc", none⟩] [Token.int 1]
    (by decide)).trans (by decide)

/-- C8: the `run_tests` prologue raises the no-cases error exactly when
discovery found nothing and no explicit case filter was requested;
when a requested filter matches nothing, it warns and returns the empty
result instead of raising. -/
theorem select_cases_spec :
    (∀ all_cases toks,
      select_cases all_cases toks = SelectOutcome.noCasesError ↔
        (all_cases = [] ∧ ¬ tokensTruthy toks)) ∧
    (∀ all_cases toks, tokensTruthy toks →
      filter_test_cases all_cases toks = [] →
      select_cases all_cases toks = SelectOutcome.emptyFiltered) := by
  constructor
  · intro all_cases toks
    unfold select_cases
    by_cases h : all_cases = [] ∧ ¬ tokensTruthy toks = true
    · rw [if_pos h]
      exact iff_of_true rfl h
    · rw [if_neg h]
      refine iff_of_false ?_ h
      by_cases h2 : tokensTruthy toks = true ∧ filter_test_cases all_cases toks = []
      · rw [if_pos h2]
        intro hc
        exact SelectOutcome.noConfusion hc
      · rw [if_neg h2]
        intro hc
        exact SelectOutcome.noConfusion hc
  · intro all_cases toks h1 h2
    unfold select_cases
    rw [if_neg (fun hc => hc.2 h1), if_pos ⟨h1, h2⟩]

/-- Witness for C8 at concrete inputs: a filter matching no case yields
the warn-and-return-empty outcome. -/
theorem select_cases_spec_witness :
    select_cases [⟨"01", none⟩] (some [Token.str "x"]) =
      SelectOutcome.emptyFiltered :=
  select_cases_spec.2 [⟨"01", none⟩] (some [Token.str "x"]) (by decide) (by decide)

/-- C9: the recursion guard runs before any orchestration work: with the
marker set, a candidate routine that returns normally makes the harness
exit with status 0 (never reaching case selection), and a routine that
raises makes it exit nonzero with a standard-error diagnostic built
from exactly the traceback frames whose file is not the harness's own
module; with the marker unset the guard hands control to orchestration,
whose case selection then proceeds. -/
theorem recursion_guard_spec :
    (∀ harnessFile all_cases toks,
      run_tests_entry (some "1") harnessFile none all_cases toks =
        Sum.inl ChildAction.exitSuccess) ∧
    (∀ harnessFile tb excText all_cases toks,
      run_tests_entry (some "1") harnessFile (some (tb, excText)) all_cases toks =
        Sum.inl (ChildAction.exitFailure ("Traceback (most recent call last):\n" ++
          String.join ((tb.filter (fun f => f.filename ≠ harnessFile)).map Frame.text) ++
          excText)) ∧
      ∀ f ∈ tb.filter (fun f => f.filename ≠ harnessFile), f.filename ≠ harnessFile) ∧
    (∀ marker harnessFile solOutcome all_cases toks, marker ≠ some "1" →
      run_tests_entry marker harnessFile solOutcome all_cases toks =
        Sum.inr (select_cases all_cases toks)) := by
  refine ⟨fun harnessFile all_cases toks => rfl,
    fun harnessFile tb excText all_cases toks =>
      ⟨rfl, fun f hf => by simpa using (List.mem_filter.mp hf).2⟩,
    fun marker harnessFile solOutcome all_cases toks h => ?_⟩
  unfold run_tests_entry handle_child_process
  rw [if_pos h]

/-- Witness for C9 at concrete inputs: with the marker absent the entry
point proceeds into case selection. -/
theorem recursion_guard_spec_witness :
    run_tests_entry none "/h.py" none [] none =
      Sum.inr (select_cases [] none) :=
  recursion_guard_spec.2.2 none "/h.py" none [] none (by decide)

/-- When `firstNonAC` finds an index, that index is in range, its
attempt is non-AC, and every earlier attempt in range is AC. -/
theorem firstNonAC_some (attempts : Nat → RunRes) :
    ∀ fuel i k, firstNonAC attempts i fuel = some k →
      i ≤ k ∧ k < i + fuel ∧ (attempts k).status ≠ STATUS_AC ∧
        ∀ j, i ≤ j → j < k → (attempts j).status = STATUS_AC := by
  intro fuel
  induction fuel with
  | zero =>
    intro i k h
    exact absurd h (by simp [firstNonAC])
  | succ m ih =>
    intro i k h
    by_cases hs : (attempts i).status ≠ STATUS_AC
    · simp only [firstNonAC, if_pos hs, Option.some.injEq] at h
      subst h
      exact ⟨Nat.le_refl _, by omega, hs,
        fun j hij hjk => absurd (Nat.lt_of_le_of_lt hij hjk) (Nat.lt_irrefl _)⟩
    · simp only [firstNonAC, if_neg hs] at h
      obtain ⟨h1, h2, h3, h4⟩ := ih (i + 1) k h
      refine ⟨by omega, by omega, h3, fun j hij hjk => ?_⟩
      rcases Nat.eq_or_lt_of_le hij with heq | hlt
      · rw [← heq]
        exact not_ne_iff.mp hs
      · exact h4 j hlt hjk

/-- When `firstNonAC` finds nothing, every attempt in range is AC. -/
theorem firstNonAC_none (attempts : Nat → RunRes) :
    ∀ fuel i, firstNonAC attempts i fuel = none →
      ∀ j, i ≤ j → j < i + fuel → (attempts j).status = STATUS_AC := by
  intro fuel
  induction fuel with
  | zero =>
    intro i _h j hij hj
    omega
  | succ m ih =>
    intro i h j hij hj
    by_cases hs : (attempts i).status ≠ STATUS_AC
    · simp only [firstNonAC, if_pos hs] at h
      exact Option.noConfusion h
    · rcases Nat.eq_or_lt_of_le hij with heq | hlt
      · rw [← heq]
        exact not_ne_iff.mp hs
      · simp only [firstNonAC, if_neg hs] at h
        exact ih (i + 1) h j hlt (by omega)

/-- One-step unfolding of `repeatGo`. -/
theorem repeatGo_succ (attempts : Nat → RunRes) (i n : Nat) (times : List ℚ)
    (st out err : String) :
    repeatGo attempts i (n + 1) times st out err =
      if (attempts i).status ≠ STATUS_AC then
        ((attempts i).status, times ++ [(attempts i).duration],
         (attempts i).output, (attempts i).error)
      else repeatGo attempts (i + 1) n (times ++ [(attempts i).duration])
        (attempts i).status (attempts i).output (attempts i).error := rfl

/-- One-step unfolding of `firstNonAC`. -/
theorem firstNonAC_succ (attempts : Nat → RunRes) (i fuel : Nat) :
    firstNonAC attempts i (fuel + 1) =
      if (attempts i).status ≠ STATUS_AC then some i
      else firstNonAC attempts (i + 1) fuel := rfl

/-- The repeat loop, started at attempt `i` with accumulated `times`,
returns the data of the first non-AC attempt with the times of all
attempts through it, or the data of the last attempt with all times
when every attempt is AC. -/
theorem repeatGo_spec (attempts : Nat → RunRes) :
    ∀ n i times st out err,
      repeatGo attempts i (n + 1) times st out err =
        match firstNonAC attempts i (n + 1) with
        | some k =>
          ((attempts k).status,
           times ++ (List.range' i (k + 1 - i)).map (fun j => (attempts j).duration),
           (attempts k).output, (attempts k).error)
        | none =>
          ((attempts (i + n)).status,
           times ++ (List.range' i (n + 1)).map (fun j => (attempts j).duration),
           (attempts (i + n)).output, (attempts (i + n)).error) := by
  intro n
  induction n with
  | zero =>
    intro i times st out err
    by_cases h : (attempts i).status ≠ STATUS_AC
    · simp only [repeatGo, firstNonAC, if_pos h]
      have h1 : i + 1 - i = 1 := by omega
      simp [h1, List.range'_one]
    · simp only [repeatGo, firstNonAC, if_neg h]
      simp [List.range'_one]
  | succ m ih =>
    intro i times st out err
    rw [repeatGo_succ, firstNonAC_succ]
    by_cases h : (attempts i).status ≠ STATUS_AC
    · rw [if_pos h, if_pos h]
      have h1 : i + 1 - i = 1 := by omega
      simp [h1, List.range'_one]
    · rw [if_neg h, if_neg h]
      rw [ih (i + 1) (times ++ [(attempts i).duration]) (attempts i).status
        (attempts i).output (attempts i).error]
      cases hk : firstNonAC attempts (i + 1) (m + 1) with
      | some k =>
        obtain ⟨hb1, _hb2, _hb3, _hb4⟩ := firstNonAC_some attempts (m + 1) (i + 1) k hk
        dsimp only
        have h1 : k + 1 - i = (k - i) + 1 := by omega
        have h2 : k + 1 - (i + 1) = k - i := by omega
        rw [h1, h2, List.range'_succ]
        simp
      | none =>
        dsimp only
        have h1 : i + 1 + m = i + (m + 1) := by omega
        rw [h1]
        simp [List.range'_succ]

/-- C5: for every repeat count of the form `r + 1` (that is, every count
at least 1), the repeat controller appends each attempt's elapsed time
in attempt order, stops at the first attempt whose status is not AC and
returns that attempt's status, output and diagnostic together with the
times of all attempts run so far, and when every attempt is AC it
returns AC with all `r + 1` times and the final attempt's output and
diagnostic. -/
theorem execute_case_with_repeat_spec (attempts : Nat → RunRes) (r : Nat) :
    match firstNonAC attempts 0 (r + 1) with
    | some k =>
      k ≤ r ∧ (attempts k).status ≠ STATUS_AC ∧
      (∀ j, j < k → (attempts j).status = STATUS_AC) ∧
      execute_case_with_repeat attempts (r + 1) =
        ((attempts k).status,
         (List.range' 0 (k + 1)).map (fun j => (attempts j).duration),
         (attempts k).output, (attempts k).error)
    | none =>
      (∀ j, j < r + 1 → (attempts j).status = STATUS_AC) ∧
      execute_case_with_repeat attempts (r + 1) =
        (STATUS_AC,
         (List.range' 0 (r + 1)).map (fun j => (attempts j).duration),
         (attempts r).output, (attempts r).error) := by
  have hmain := repeatGo_spec attempts r 0 [] "" "" ""
  cases hk : firstNonAC attempts 0 (r + 1) with
  | some k =>
    rw [hk] at hmain
    obtain ⟨_h1, h2, h3, h4⟩ := firstNonAC_some attempts (r + 1) 0 k hk
    refine ⟨by omega, h3, fun j hj => h4 j (Nat.zero_le _) hj, ?_⟩
    unfold execute_case_with_repeat
    rw [hmain]
    simp
  | none =>
    rw [hk] at hmain
    have hall := firstNonAC_none attempts (r + 1) 0 hk
    have hr : (attempts (0 + r)).status = STATUS_AC :=
      hall (0 + r) (Nat.zero_le _) (by omega)
    refine ⟨fun j hj => hall j (Nat.zero_le _) (by omega), ?_⟩
    unfold execute_case_with_repeat
    rw [hmain, hr]
    simp

/-- `takeCap` of the empty list is empty. -/
theorem takeCap_nil (md : Option Nat) (count : Nat) : takeCap md count [] = [] := by
  cases md <;> simp [takeCap]

/-- `takeCap` keeps the head exactly when the next mismatch is still
within the cap. -/
theorem takeCap_cons (md : Option Nat) (count x : Nat) (l : List Nat) :
    takeCap md count (x :: l) =
      if renderOk md (count + 1) then x :: takeCap md (count + 1) l
      else takeCap md (count + 1) l := by
  cases md with
  | none => simp [takeCap, renderOk]
  | some m =>
    simp only [takeCap, renderOk]
    by_cases h : count + 1 ≤ m
    · rw [if_pos (by simpa using h)]
      have h1 : m - count = (m - (count + 1)) + 1 := by omega
      rw [h1, List.take_succ_cons]
    · rw [if_neg (by simpa using h)]
      have h1 : m - count = 0 := by omega
      have h2 : m - (count + 1) = 0 := by omega
      rw [h1, h2]
      simp

/-- One-step unfolding of `reportAux`. -/
theorem reportAux_succ (act exp : List String) (md : Option Nat)
    (fuel i count : Nat) :
    reportAux act exp md (fuel + 1) i count =
      if act.length ≤ i then ([insuffMsg], count)
      else if act.getD i "" = expAt exp i then
        reportAux act exp md fuel (i + 1) count
      else if renderOk md (count + 1) then
        (entryFor i (act.getD i "") (expAt exp i) ::
          (reportAux act exp md fuel (i + 1) (count + 1)).1,
         (reportAux act exp md fuel (i + 1) (count + 1)).2)
      else reportAux act exp md fuel (i + 1) (count + 1) := rfl

/-- One-step unfolding of `mismatchIdxs`. -/
theorem mismatchIdxs_succ (act exp : List String) (fuel i : Nat) :
    mismatchIdxs act exp (fuel + 1) i =
      if act.length ≤ i then []
      else if act.getD i "" = expAt exp i then mismatchIdxs act exp fuel (i + 1)
      else i :: mismatchIdxs act exp fuel (i + 1) := rfl

/-- The second component of the diff loop counts every mismatch it
visits, capped or not. -/
theorem reportAux_count (act exp : List String) (md : Option Nat) :
    ∀ fuel i count,
      (reportAux act exp md fuel i count).2 =
        count + (mismatchIdxs act exp fuel i).length := by
  intro fuel
  induction fuel with
  | zero =>
    intro i count
    simp [reportAux, mismatchIdxs]
  | succ n ih =>
    intro i count
    rw [reportAux_succ, mismatchIdxs_succ]
    by_cases h1 : act.length ≤ i
    · rw [if_pos h1, if_pos h1]
      simp
    · rw [if_neg h1, if_neg h1]
      by_cases h2 : act.getD i "" = expAt exp i
      · rw [if_pos h2, if_pos h2]
        exact ih (i + 1) count
      · rw [if_neg h2, if_neg h2]
        by_cases h3 : renderOk md (count + 1) = true
        · rw [if_pos h3]
          dsimp only
          rw [ih (i + 1) (count + 1)]
          simp only [List.length_cons]
          omega
        · rw [if_neg h3]
          rw [ih (i + 1) (count + 1)]
          simp only [List.length_cons]
          omega

/-- The first component of the diff loop is: the capped rendering of
the mismatch positions it visits, followed by the early-EOF entry
exactly when the loop still has iterations left once the actual lines
run out. -/
theorem reportAux_entries (act exp : List String) (md : Option Nat) :
    ∀ fuel i count,
      (reportAux act exp md fuel i count).1 =
        (takeCap md count (mismatchIdxs act exp fuel i)).map
          (fun k => entryFor k (act.getD k "") (expAt exp k)) ++
        (if 0 < fuel ∧ act.length < i + fuel then [insuffMsg] else []) := by
  intro fuel
  induction fuel with
  | zero =>
    intro i count
    simp [reportAux, mismatchIdxs, takeCap_nil]
  | succ n ih =>
    intro i count
    rw [reportAux_succ, mismatchIdxs_succ]
    by_cases h1 : act.length ≤ i
    · rw [if_pos h1, if_pos h1, takeCap_nil]
      rw [if_pos ⟨Nat.succ_pos n, by omega⟩]
      simp
    · rw [if_neg h1, if_neg h1]
      have hc : (0 < n ∧ act.length < (i + 1) + n) ↔
          (0 < n + 1 ∧ act.length < i + (n + 1)) := by omega
      by_cases h2 : act.getD i "" = expAt exp i
      · rw [if_pos h2, if_pos h2]
        rw [ih (i + 1) count]
        rw [if_congr hc rfl rfl]
      · rw [if_neg h2, if_neg h2, takeCap_cons]
        by_cases h3 : renderOk md (count + 1) = true
        · rw [if_pos h3, if_pos h3]
          dsimp only
          rw [ih (i + 1) (count + 1)]
          rw [if_congr hc rfl rfl]
          simp
        · rw [if_neg h3, if_neg h3]
          rw [ih (i + 1) (count + 1)]
          rw [if_congr hc rfl rfl]

/-- With enough fuel, the loop's mismatch positions are the positions
below the actual line count where the lines differ. -/
theorem mismatchIdxs_range (act exp : List String) :
    ∀ fuel i, act.length ≤ i + fuel →
      mismatchIdxs act exp fuel i =
        (List.range' i (act.length - i)).filter
          (fun k => act.getD k "" ≠ expAt exp k) := by
  intro fuel
  induction fuel with
  | zero =>
    intro i h
    have h1 : act.length - i = 0 := by omega
    simp [mismatchIdxs, h1]
  | succ n ih =>
    intro i h
    rw [mismatchIdxs_succ]
    by_cases h1 : act.length ≤ i
    · have h2 : act.length - i = 0 := by omega
      rw [if_pos h1, h2]
      simp
    · rw [if_neg h1]
      have h2 : act.length - i = (act.length - (i + 1)) + 1 := by omega
      rw [h2, List.range'_succ, List.filter_cons]
      by_cases h3 : act.getD i "" = expAt exp i
      · rw [if_pos h3, ih (i + 1) (by omega)]
        simp only [List.getD_eq_getElem?_getD] at h3
        simp [h3]
      · rw [if_neg h3, ih (i + 1) (by omega)]
        simp only [List.getD_eq_getElem?_getD] at h3
        simp [h3]

/-- The loop's mismatch positions, started from zero with the full
iteration count, are exactly `mismatches`. -/
theorem mismatches_eq_loop (act exp : List String) :
    mismatchIdxs act exp (max act.length exp.length) 0 = mismatches act exp := by
  rw [mismatchIdxs_range act exp (max act.length exp.length) 0 (by omega)]
  rw [mismatches, Nat.sub_zero, ← List.range_eq_range']

/-- C2: the WA diff report is, in order: the per-line mismatch entries
of the form built by `entryFor` — one for each position below the
actual sequence's length where the actual line differs from the
EOF-padded expected line, truncated to the display cap (`none` renders
all, a cap of 0 renders none) — then a single insufficient-output-lines
entry exactly when the actual sequence is the shorter one (the loop
stops there, so no per-line entry lies past the actual length), and
finally, when the total mismatch count exceeds the cap, one trailing
summary stating how many differences were suppressed; the mismatch
count itself counts every mismatch, beyond the cap included. -/
theorem compareReport_spec (act_lines exp_lines : List String) (md : Option Nat) :
    compareReport act_lines exp_lines md =
      (takeCap md 0 (mismatches act_lines exp_lines)).map
        (fun k => entryFor k (act_lines.getD k "") (expAt exp_lines k)) ++
      (if act_lines.length < exp_lines.length then [insuffMsg] else []) ++
      (match md with
       | none => []
       | some m =>
         if m < (mismatches act_lines exp_lines).length
         then [moreMsg ((mismatches act_lines exp_lines).length - m)] else []) ∧
    (∀ k ∈ mismatches act_lines exp_lines,
      k < act_lines.length ∧ act_lines.getD k "" ≠ expAt exp_lines k) ∧
    (reportAux act_lines exp_lines md
        (max act_lines.length exp_lines.length) 0 0).2 =
      (mismatches act_lines exp_lines).length ∧
    takeCap (some 0) 0 (mismatches act_lines exp_lines) = [] ∧
    takeCap none 0 (mismatches act_lines exp_lines) =
      mismatches act_lines exp_lines := by
  have hcount : (reportAux act_lines exp_lines md
      (max act_lines.length exp_lines.length) 0 0).2 =
      (mismatches act_lines exp_lines).length := by
    rw [reportAux_count, mismatches_eq_loop, Nat.zero_add]
  refine ⟨?_, ?_, hcount, rfl, rfl⟩
  · unfold compareReport
    rw [reportAux_entries, mismatches_eq_loop, hcount]
    have hc : (0 < max act_lines.length exp_lines.length ∧
        act_lines.length < 0 + max act_lines.length exp_lines.length) ↔
        act_lines.length < exp_lines.length := by omega
    rw [if_congr hc rfl rfl, List.append_assoc]
  · intro k hk
    have hm := List.mem_filter.mp hk
    refine ⟨List.mem_range.mp hm.1, ?_⟩
    simpa using hm.2

/-- Witness for C2 at concrete inputs: position 1 of actual
`["x", "q"]` against expected `["x", "y", "z"]` is a genuine mismatch
position below the actual length. -/
theorem compareReport_spec_witness :
    1 < (["x", "q"] : List String).length ∧
      (["x", "q"] : List String).getD 1 "" ≠ expAt ["x", "y", "z"] 1 :=
  (compareReport_spec ["x", "q"] ["x", "y", "z"] (some 10)).2.1 1 (by decide)

/-- Witness for C4 at concrete inputs: the lenient comparator accepts
the whitespace-differing pair. -/
theorem compare_modes_spec_witness :
    (compare_output "a \n\nb" "a\nb" false (some 10)).1 = STATUS_AC :=
  compare_modes_spec.2.1 (some 10)

/-- Witness for C5 at concrete inputs: one AC attempt followed by an RE
attempt stops after two runs with both times recorded and the RE
attempt's data returned. -/
theorem execute_case_with_repeat_spec_witness :
    execute_case_with_repeat
      (fun i => if i = 0 then ⟨STATUS_AC, "o1", 5, ""⟩
        else ⟨STATUS_RE, "o2", 7, "e"⟩) 2 =
      (STATUS_RE, [5, 7], "o2", "e") := by
  have h := execute_case_with_repeat_spec
    (fun i => if i = 0 then (⟨STATUS_AC, "o1", 5, ""⟩ : RunRes)
      else ⟨STATUS_RE, "o2", 7, "e"⟩) 1
  rw [show firstNonAC
      (fun i => if i = 0 then (⟨STATUS_AC, "o1", 5, ""⟩ : RunRes)
        else ⟨STATUS_RE, "o2", 7, "e"⟩) 0 (1 + 1) = some 1 from by decide] at h
  exact h.2.2.2.trans (by decide)

/-- Witness for C7 at concrete inputs: an AC run with no expected file
is marked MISSING with the diagnostic naming the absent file. -/
theorem adjudicate_spec_witness :
    adjudicate true false (some 10) STATUS_AC "" "01" none "out" =
      (STATUS_MISSING, "找不到對應的 01.out 檔案") :=
  (adjudicate_spec.2.1 false (some 10) "" "01" "out").trans (by decide)

end OJ
